import Mathlib

/-!
Verification development for the `excelerator` library (`src/lib.rs`).

The library reads a spreadsheet through the external `calamine` decoder,
locates a header row in the decoded cell grid, and exposes the rows below
the header as records addressable by column name.

Embedding conventions:

* A decoded sheet (`calamine::Range<DataType>`) is modelled by `Range`:
  an anchored rectangular grid of cells.  Every operation of the library
  observes a cell only through its string form (`DataType::to_string`),
  so cells are modelled directly by their string form; an in-range blank
  cell is the empty string, matching `DataType::Empty.to_string()`.
  `Range.start` / `Range.rangeEnd` model `Range::start` / `Range::end`
  (`None` on an empty range), and `Range.get_value` models
  `Range::get_value`, which takes absolute coordinates and returns `none`
  outside the stored rectangle.  `Range.WF` records the rectangularity
  calamine guarantees: each stored row has exactly `width` cells and a
  non-empty range has positive width.
* `HashMap<String, u32>` built by `collect` from an `(s, i)` iterator is
  modelled by the insertion list `buildHeader row` together with the
  lookup `headerGet`, in which an entry later in the list overwrites an
  earlier entry with the same key, exactly as sequential `HashMap`
  insertion does; `headerKeys` models `HashMap::keys` (each distinct key
  once).
* The decoder is modelled at the boundary the code uses: `Sheets` is the
  ordered sheet list with each sheet's decode result, `open_workbook_auto`'s
  outcome is passed to the entry points as an `Except` value, and the
  filename is passed separately (the code derives it from the path for
  error messages only).
* `u32` indices are modelled by `Nat`; none of the modelled paths can
  overflow `u32` for grids calamine can produce, and no wrapping
  arithmetic occurs in the source.
* Iterators are explicit states: `RowsIterator.next` returns the yielded
  item and the advanced state; `RowsIterator.takeAll` with sufficient
  fuel (`RowsIterator.toList`) is the list of all yielded items.
-/

namespace Excelerator

/-- Model of `calamine::Error` (external): an opaque decoder failure. -/
structure CalamineError where
  msg : String
deriving DecidableEq, Repr

/-- Model of `LoadError` in `lib.rs`. -/
inductive LoadError where
  | Empty (filename : String)
  | EmptySheet (filename : String) (sheet_name : String)
  | CalamineError (e : CalamineError)
deriving DecidableEq, Repr

/-- Model of `DataError` in `lib.rs`. -/
inductive DataError where
  | ParseError (key : String) (value : String)
  | NoValue (key : String)
deriving DecidableEq, Repr

/-- Model of `calamine::Range<DataType>`: a grid of cells anchored at the
absolute coordinate `(srow, scol)`, each cell given by its string form.
`cells` lists the rows of the rectangle; an empty `cells` is the empty
range (whose `start`/`end` are `None` in calamine). -/
structure Range where
  srow : Nat
  scol : Nat
  width : Nat
  cells : List (List String)
deriving DecidableEq, Repr

/-- Rectangularity guaranteed by calamine: every stored row has exactly
`width` cells, and a non-empty range has positive width. -/
def Range.WF (r : Range) : Prop :=
  (∀ rw ∈ r.cells, rw.length = r.width) ∧ (r.cells ≠ [] → 0 < r.width)

instance (r : Range) : Decidable r.WF := by
  unfold Range.WF; infer_instance

/-- Model of `Range::start`: the absolute top-left coordinate, `none` for
an empty range. -/
def Range.start (r : Range) : Option (Nat × Nat) :=
  if r.cells.isEmpty then none else some (r.srow, r.scol)

/-- Model of `Range::end`: the absolute bottom-right coordinate, `none`
for an empty range. -/
def Range.rangeEnd (r : Range) : Option (Nat × Nat) :=
  if r.cells.isEmpty then none
  else some (r.srow + r.cells.length - 1, r.scol + r.width - 1)

/-- Model of `Range::get_value` at an absolute `(row, col)` coordinate:
`none` outside the stored rectangle, otherwise the stored cell. -/
def Range.get_value (r : Range) (row col : Nat) : Option String :=
  if row < r.srow ∨ col < r.scol then none
  else
    match r.cells.get? (row - r.srow) with
    | some rw => rw.get? (col - r.scol)
    | none => none

/-- The value `last_col - first_col + 1` computed in
`from_workbook_sheet_name` from the range's bounding box. -/
def Range.min_cols (r : Range) : Nat :=
  (r.scol + r.width - 1) - r.scol + 1

/-- Number of cells of a row whose string form is non-empty: models
`row.iter().filter(|x| !x.is_empty()).count()`. -/
def countNonEmpty (row : List String) : Nat :=
  (row.filter fun s => !s.isEmpty).length

/-- The header insertion list: models
`row.into_iter().enumerate().map(|(i, s)| (s, i as u32))`, whose pairs are
inserted into the `HashMap` in order.  `i` is the starting index. -/
def buildHeaderAux (i : Nat) : List String → List (String × Nat)
  | [] => []
  | s :: rest => (s, i) :: buildHeaderAux (i + 1) rest

/-- The header map built from an accepted header row (insertion order). -/
def buildHeader (row : List String) : List (String × Nat) :=
  buildHeaderAux 0 row

/-- Model of `HashMap::get` on a map built by in-order insertion: an entry
later in the insertion list overwrites an earlier entry with the same key. -/
def headerGet : List (String × Nat) → String → Option Nat
  | [], _ => none
  | (s, i) :: rest, k =>
    match headerGet rest k with
    | some v => some v
    | none => if s == k then some i else none

/-- Model of `WorkbookData` in `lib.rs`. -/
structure WorkbookData where
  header : List (String × Nat)
  range : Range
  first_row : Nat
  last_row : Nat
  first_col : Nat
  last_col : Nat
deriving DecidableEq, Repr

/-- The header-scanning loop of `from_workbook_sheet_name`: `first_row` is
incremented, the next row is drawn, and the row is accepted when its
non-empty-cell count reaches `min_cols`; `none` when the rows run out. -/
def findHeader (min_cols : Nat) (first_row : Nat) :
    List (List String) → Option (Nat × List String)
  | [] => none
  | row :: rest =>
    if min_cols ≤ countNonEmpty row then some (first_row + 1, row)
    else findHeader min_cols (first_row + 1) rest

/-- The grid-level part of `WorkbookData::from_workbook_sheet_name` (the
Header Locator): everything after the decoder has produced the range.
Returns `none` when the range is empty or no row reaches the threshold. -/
def locate (range : Range) : Option WorkbookData :=
  match range.start, range.rangeEnd with
  | some (first_row, first_col), some (last_row, last_col) =>
    (match findHeader (last_col - first_col + 1) first_row range.cells with
     | some (fr, row) =>
       some { header := buildHeader row, range := range, first_row := fr,
              last_row := last_row, first_col := first_col, last_col := last_col }
     | none => none)
  | _, _ => none

/-- Model of the decoder-facing workbook handle (`calamine::Sheets`): the
ordered sheets, each with its decode outcome. -/
structure Sheets where
  sheets : List (String × Except CalamineError Range)

/-- Model of `Sheets::sheet_names`. -/
def Sheets.sheet_names (wb : Sheets) : List String :=
  wb.sheets.map Prod.fst

/-- Model of `Sheets::worksheet_range`: `none` when no sheet has that
name, otherwise the decode outcome of the first sheet with that name. -/
def Sheets.worksheet_range (wb : Sheets) (name : String) :
    Option (Except CalamineError Range) :=
  (wb.sheets.find? fun p => p.1 == name).map Prod.snd

/-- Model of `WorkbookData::from_workbook_sheet_name`: `none` when the
sheet is missing or no header is located, a wrapped decoder error when the
decode fails, otherwise the located view. -/
def WorkbookData.from_workbook_sheet_name (wb : Sheets) (sheet_name : String) :
    Option (Except LoadError WorkbookData) :=
  match wb.worksheet_range sheet_name with
  | none => none
  | some (.error e) => some (.error (.CalamineError e))
  | some (.ok range) =>
    match locate range with
    | some d => some (.ok d)
    | none => none

/-- The sheet loop of `WorkbookData::from_path`: `if let Some(Ok(data))`
takes the first sheet that yields a view; every other outcome (missing
header or decoder error) moves on to the next sheet. -/
def fromPathGo (wb : Sheets) (filename : String) :
    List String → Except LoadError WorkbookData
  | [] => .error (.Empty filename)
  | s :: rest =>
    match WorkbookData.from_workbook_sheet_name wb s with
    | some (.ok d) => .ok d
    | _ => fromPathGo wb filename rest

/-- Model of `WorkbookData::from_path`.  `openResult` is the outcome of
`open_workbook_auto(path)` (external); `filename` is the path's display
form, kept for error messages only. -/
def WorkbookData.from_path (openResult : Except CalamineError Sheets)
    (filename : String) : Except LoadError WorkbookData :=
  match openResult with
  | .error e => .error (.CalamineError e)
  | .ok wb => fromPathGo wb filename wb.sheet_names

/-- Model of `WorkbookData::from_path_with_sheet_name`. -/
def WorkbookData.from_path_with_sheet_name (openResult : Except CalamineError Sheets)
    (filename : String) (sheet_name : String) : Except LoadError WorkbookData :=
  match openResult with
  | .error e => .error (.CalamineError e)
  | .ok wb =>
    match WorkbookData.from_workbook_sheet_name wb sheet_name with
    | some (.ok d) => .ok d
    | some (.error e) => .error e
    | none => .error (.EmptySheet filename sheet_name)

/-- Model of `WorkbookData::get`. -/
def WorkbookData.get (d : WorkbookData) (row_number : Nat) (column_header : String) :
    Option String :=
  if row_number < d.first_row ∨ d.last_row < row_number then none
  else
    match headerGet d.header column_header with
    | none => none
    | some col_number => d.range.get_value row_number col_number

/-- Model of `HashMap::keys` on the header map: each distinct key once. -/
def WorkbookData.headerKeys (d : WorkbookData) : List String :=
  (d.header.map Prod.fst).dedup

/-- Model of `WorkbookData::is_row_empty`. -/
def WorkbookData.is_row_empty (d : WorkbookData) (row_number : Nat) : Bool :=
  ((d.headerKeys.filterMap fun h => d.get row_number h).filter
      fun v => !v.isEmpty).length == 0

/-- Model of `RowsIterator` (the `source` reference is the view itself). -/
structure RowsIterator where
  source : WorkbookData
  current_row : Nat
  last_row : Nat
  first_col : Nat
  last_col : Nat
deriving DecidableEq, Repr

/-- Model of `WorkbookData::iter_rows`. -/
def WorkbookData.iter_rows (d : WorkbookData) : RowsIterator :=
  { source := d, current_row := d.first_row, last_row := d.last_row,
    first_col := d.first_col, last_col := d.last_col }

/-- Model of `RowData`. -/
structure RowData where
  source : WorkbookData
  row_number : Nat
deriving DecidableEq, Repr

/-- Model of `RowsIterator::next` as a state transformer: the yielded
item together with the advanced iterator.  Note the source increments
`current_row` *before* building the `RowData`, so the yielded row number
is the incremented value. -/
def RowsIterator.next (it : RowsIterator) : Option (RowData × RowsIterator) :=
  if it.last_row < it.current_row then none
  else
    some ({ source := it.source, row_number := it.current_row + 1 },
          { it with current_row := it.current_row + 1 })

/-- All items yielded by the iterator within `fuel` steps. -/
def RowsIterator.takeAll (fuel : Nat) (it : RowsIterator) : List RowData :=
  match fuel with
  | 0 => []
  | fuel + 1 =>
    match it.next with
    | none => []
    | some (rd, it') => rd :: RowsIterator.takeAll fuel it'

/-- The full (finite) list of items the iterator yields:
`last_row + 1 - current_row` steps of fuel always exhaust it. -/
def RowsIterator.toList (it : RowsIterator) : List RowData :=
  RowsIterator.takeAll (it.last_row + 1 - it.current_row) it

/-- Model of `RowData::number`. -/
def RowData.number (rd : RowData) : Nat :=
  rd.row_number

/-- Model of `RowData::get`. -/
def RowData.get (rd : RowData) (column_header : String) : Except DataError String :=
  match rd.source.get rd.row_number column_header with
  | some value => .ok value
  | none => .error (.NoValue column_header)

/-- Model of `RowData::parse` for a target type `T` whose `FromStr`
instance is modelled by the standard textual parse `p` (`none` exactly
when Rust's `str::parse::<T>` errors). -/
def RowData.parse {T : Type} (p : String → Option T) (rd : RowData)
    (column_header : String) : Except DataError T :=
  match rd.get column_header with
  | .error e => .error e
  | .ok value_str =>
    match p value_str with
    | some v => .ok v
    | none => .error (.ParseError column_header value_str)

/-- Model of `RowData::is_empty`. -/
def RowData.is_empty (rd : RowData) : Bool :=
  rd.source.is_row_empty rd.row_number

/-- Model of the standard unsigned-integer `FromStr` (external `std`,
`"42".parse::<u32>()` et al.) at the fidelity the claims exercise: a
non-empty all-digit string parses to its decimal value, anything else
(such as `"abc"`) fails. -/
def parseNat (s : String) : Option Nat :=
  if s.toList ≠ [] ∧ s.toList.all Char.isDigit then
    some (s.toList.foldl (fun n c => n * 10 + (c.toNat - 48)) 0)
  else none

/-- Equality of `Except` values is decidable when it is on both sides. -/
instance {ε : Type u} {α : Type v} [DecidableEq ε] [DecidableEq α] :
    DecidableEq (Except ε α) := fun a b =>
  match a, b with
  | .error e, .error e' =>
    if h : e = e' then isTrue (by rw [h]) else
      isFalse (by intro hc; injection hc; contradiction)
  | .error _, .ok _ => isFalse (fun hc => Except.noConfusion hc)
  | .ok _, .error _ => isFalse (fun hc => Except.noConfusion hc)
  | .ok x, .ok y =>
    if h : x = y then isTrue (by rw [h]) else
      isFalse (by intro hc; injection hc; contradiction)

/-- Fixture grid: a title row with a single populated cell, a fully
populated header row `["H1", "H2"]`, then three data rows. -/
def exG : Range :=
  ⟨0, 0, 2, [["Title", ""], ["H1", "H2"], ["a", "b"], ["c", "d"], ["e", "f"]]⟩

/-- The view the locator produces on `exG`: header at grid row 1, data
rows 2..4. -/
def exView : WorkbookData :=
  { header := buildHeader ["H1", "H2"], range := exG,
    first_row := 2, last_row := 4, first_col := 0, last_col := 1 }

/-- Fixture grid whose bounding box starts at column 1 (`first_col > 0`). -/
def exG2 : Range := ⟨0, 1, 2, [["A", "B"], ["x", "y"]]⟩

/-- The view the locator produces on `exG2`. -/
def exView2 : WorkbookData :=
  { header := buildHeader ["A", "B"], range := exG2,
    first_row := 1, last_row := 1, first_col := 1, last_col := 2 }

/-- Fixture workbook with a single sheet whose decode fails. -/
def wbErr : Sheets := ⟨[("Sheet1", .error ⟨"boom"⟩)]⟩

/-- Fixture: an empty grid. -/
def emptyG : Range := ⟨0, 0, 0, []⟩

/-- Fixture workbook with a single sheet decoding to the empty grid. -/
def wbEmpty : Sheets := ⟨[("S", .ok emptyG)]⟩

/-- Fixture view with one column `"Qty"` whose single data cell is `"42"`. -/
def viewQty : WorkbookData :=
  ⟨[("Qty", 0)], ⟨0, 0, 1, [["42"]]⟩, 0, 0, 0, 0⟩

/-- Fixture row handle over `viewQty`. -/
def rdQty : RowData := ⟨viewQty, 0⟩

/-- Fixture view with one column `"Qty"` whose single data cell is `"abc"`. -/
def viewAbc : WorkbookData :=
  ⟨[("Qty", 0)], ⟨0, 0, 1, [["abc"]]⟩, 0, 0, 0, 0⟩

/-- Fixture row handle over `viewAbc`. -/
def rdAbc : RowData := ⟨viewAbc, 0⟩

/-- Lookup misses when the key is absent from the insertion list. -/
theorem headerGet_eq_none_of_not_mem (hdr : List (String × Nat)) (k : String)
    (h : k ∉ hdr.map Prod.fst) : headerGet hdr k = none := by
  induction hdr with
  | nil => rfl
  | cons p rest ih =>
    obtain ⟨s, i⟩ := p
    simp only [List.map_cons, List.mem_cons, not_or] at h
    obtain ⟨h1, h2⟩ := h
    have hne : (s == k) = false := by
      simp only [beq_eq_false_iff_ne, ne_eq]
      intro hc
      exact h1 (hc ▸ rfl)
    simp [headerGet, ih h2, hne]

/-- A successful lookup returns an entry of the insertion list. -/
theorem headerGet_mem (hdr : List (String × Nat)) (k : String) (v : Nat)
    (h : headerGet hdr k = some v) : (k, v) ∈ hdr := by
  induction hdr with
  | nil => simp [headerGet] at h
  | cons p rest ih =>
    obtain ⟨s, i⟩ := p
    simp only [headerGet] at h
    cases hr : headerGet rest k with
    | some w =>
      rw [hr] at h
      simp only [Option.some.injEq] at h
      exact List.mem_cons_of_mem _ (ih (h ▸ hr))
    | none =>
      rw [hr] at h
      by_cases hs : (s == k) = true
      · rw [if_pos hs] at h
        simp only [Option.some.injEq] at h
        have : s = k := by simpa [beq_iff_eq] using hs
        subst this
        subst h
        exact List.mem_cons_self _ _
      · rw [if_neg hs] at h
        exact absurd h (by simp)

/-- Any key present in the insertion list has a successful lookup. -/
theorem headerGet_isSome_of_mem (hdr : List (String × Nat)) (k : String) (v : Nat)
    (h : (k, v) ∈ hdr) : ∃ w, headerGet hdr k = some w := by
  induction hdr with
  | nil => simp at h
  | cons p rest ih =>
    obtain ⟨s, i⟩ := p
    rcases List.mem_cons.mp h with h1 | h2
    · cases hr : headerGet rest k with
      | some w => exact ⟨w, by simp [headerGet, hr]⟩
      | none =>
        have hks : s = k := by
          have := congrArg Prod.fst h1
          simpa using this.symm
        refine ⟨i, ?_⟩
        simp [headerGet, hr, hks]
    · obtain ⟨w, hw⟩ := ih h2
      exact ⟨w, by simp [headerGet, hw]⟩

/-- Every entry of the enumerated header list has its key in the row and
its value in `[i, i + row.length)`. -/
theorem buildHeaderAux_mem (i : Nat) (row : List String) (p : String × Nat)
    (h : p ∈ buildHeaderAux i row) :
    p.1 ∈ row ∧ i ≤ p.2 ∧ p.2 < i + row.length := by
  induction row generalizing i with
  | nil => simp [buildHeaderAux] at h
  | cons s rest ih =>
    simp only [buildHeaderAux, List.mem_cons] at h
    rcases h with h | h
    · subst h
      refine ⟨by simp, by simp, by simp⟩
    · obtain ⟨h1, h2, h3⟩ := ih (i + 1) h
      exact ⟨by simp [h1], by omega, by simp only [List.length_cons]; omega⟩

/-- Keys of the enumerated header list are exactly cells of the row. -/
theorem mem_of_mem_map_fst_buildHeaderAux (i : Nat) (row : List String) (k : String)
    (h : k ∈ (buildHeaderAux i row).map Prod.fst) : k ∈ row := by
  obtain ⟨p, hp, hfst⟩ := List.mem_map.mp h
  exact hfst ▸ (buildHeaderAux_mem i row p hp).1

/-- Lookup in the enumerated header list returns the index of the last
occurrence of the key. -/
theorem headerGet_buildHeaderAux_last (i : Nat) (pre suf : List String) (k : String)
    (hk : k ∉ suf) :
    headerGet (buildHeaderAux i (pre ++ k :: suf)) k = some (i + pre.length) := by
  induction pre generalizing i with
  | nil =>
    simp only [List.nil_append, buildHeaderAux, headerGet]
    have hnone : headerGet (buildHeaderAux (i + 1) suf) k = none := by
      apply headerGet_eq_none_of_not_mem
      intro hmem
      exact hk (mem_of_mem_map_fst_buildHeaderAux (i + 1) suf k hmem)
    rw [hnone]
    simp
  | cons a pre ih =>
    simp only [List.cons_append, buildHeaderAux, headerGet, List.append_eq]
    rw [ih (i + 1)]
    simp only [List.length_cons]
    congr 1
    omega

/-- The scanning loop accepts the first row reaching the threshold, after
skipping exactly the leading rows below it. -/
theorem findHeader_append (mc fr : Nat) (pre : List (List String)) (row : List String)
    (rest : List (List String)) (hpre : ∀ p ∈ pre, countNonEmpty p < mc)
    (hrow : mc ≤ countNonEmpty row) :
    findHeader mc fr (pre ++ row :: rest) = some (fr + pre.length + 1, row) := by
  induction pre generalizing fr with
  | nil => simp [findHeader, hrow]
  | cons a pre ih =>
    have ha : ¬ mc ≤ countNonEmpty a := by
      have := hpre a (by simp)
      omega
    simp only [List.cons_append, findHeader, if_neg ha, List.append_eq]
    rw [ih (fr + 1) fun p hp => hpre p (by simp [hp])]
    simp only [List.length_cons]
    congr 2
    omega

/-- The scanning loop fails when no row reaches the threshold. -/
theorem findHeader_none (mc fr : Nat) (rows : List (List String))
    (h : ∀ row ∈ rows, countNonEmpty row < mc) : findHeader mc fr rows = none := by
  induction rows generalizing fr with
  | nil => rfl
  | cons a rest ih =>
    have ha : ¬ mc ≤ countNonEmpty a := by
      have := h a (by simp)
      omega
    simp only [findHeader, if_neg ha]
    exact ih (fr + 1) fun row hr => h row (by simp [hr])

/-- A row accepted by the scanning loop is one of the scanned rows and
reaches the threshold. -/
theorem findHeader_some (mc fr fr' : Nat) (rows : List (List String)) (row : List String)
    (h : findHeader mc fr rows = some (fr', row)) :
    row ∈ rows ∧ mc ≤ countNonEmpty row := by
  induction rows generalizing fr with
  | nil => simp [findHeader] at h
  | cons a rest ih =>
    simp only [findHeader] at h
    by_cases hc : mc ≤ countNonEmpty a
    · rw [if_pos hc] at h
      simp only [Option.some.injEq, Prod.mk.injEq] at h
      exact ⟨by simp [h.2], h.2 ▸ hc⟩
    · rw [if_neg hc] at h
      obtain ⟨h1, h2⟩ := ih (fr + 1) h
      exact ⟨by simp [h1], h2⟩

/-- Elimination for a successful locate: the view's fields come from an
accepted row of the grid and the grid's bounding box. -/
theorem locate_some_elim (r : Range) (d : WorkbookData) (h : locate r = some d) :
    ∃ hdrRow, hdrRow ∈ r.cells ∧ r.min_cols ≤ countNonEmpty hdrRow ∧
      d.header = buildHeader hdrRow ∧ d.range = r ∧
      d.first_col = r.scol ∧ d.last_col = r.scol + r.width - 1 ∧
      d.last_row = r.srow + r.cells.length - 1 ∧ r.cells ≠ [] := by
  unfold locate Range.start Range.rangeEnd at h
  by_cases hc : r.cells.isEmpty
  · simp [hc] at h
  · rw [Bool.not_eq_true] at hc
    simp only [hc, Bool.false_eq_true, if_false] at h
    cases hf : findHeader ((r.scol + r.width - 1) - r.scol + 1) r.srow r.cells with
    | none => rw [hf] at h; exact absurd h (by simp)
    | some p =>
      obtain ⟨fr, row⟩ := p
      rw [hf] at h
      simp only [Option.some.injEq] at h
      obtain ⟨hmem, hcnt⟩ := findHeader_some _ _ _ _ _ hf
      refine ⟨row, hmem, hcnt, ?_, ?_, ?_, ?_, ?_, ?_⟩
      · rw [← h]
      · rw [← h]
      · rw [← h]
      · rw [← h]
      · rw [← h]
      · simpa [List.isEmpty_iff] using hc

/-- When every cell of a row counts as non-empty, no cell is the empty
string. -/
theorem all_ne_empty_of_countNonEmpty_eq (row : List String)
    (h : countNonEmpty row = row.length) : ∀ s ∈ row, s ≠ "" := by
  induction row with
  | nil => simp
  | cons a rest ih =>
    unfold countNonEmpty at h ih
    simp only [List.filter_cons, List.length_cons] at h
    by_cases ha : (!a.isEmpty) = true
    · rw [if_pos ha] at h
      simp only [List.length_cons, Nat.add_right_cancel_iff] at h
      intro s hs
      rcases List.mem_cons.mp hs with h1 | h2
      · subst h1
        intro hc
        rw [hc] at ha
        exact absurd ha (by decide)
      · exact ih h s h2
    · rw [if_neg ha] at h
      have := List.length_filter_le (fun s => !s.isEmpty) rest
      omega

/-- The iterator is exhausted exactly when the cursor has passed
`last_row`. -/
theorem next_eq_none_iff (it : RowsIterator) :
    it.next = none ↔ it.last_row < it.current_row := by
  unfold RowsIterator.next
  by_cases h : it.last_row < it.current_row <;> simp [h]

/-- Elimination for one iterator step: the yielded handle carries the
incremented row number and the advanced state only bumps the cursor. -/
theorem next_eq_some_elim (it it' : RowsIterator) (rd : RowData)
    (h : it.next = some (rd, it')) :
    it.current_row ≤ it.last_row ∧
    rd = ⟨it.source, it.current_row + 1⟩ ∧
    it' = { it with current_row := it.current_row + 1 } := by
  unfold RowsIterator.next at h
  by_cases hc : it.last_row < it.current_row
  · simp [hc] at h
  · simp only [if_neg hc, Option.some.injEq, Prod.mk.injEq] at h
    exact ⟨by omega, h.1.symm, h.2.symm⟩

/-- An exhausted iterator yields nothing for any amount of fuel. -/
theorem takeAll_next_none (f : Nat) (it : RowsIterator) (h : it.next = none) :
    RowsIterator.takeAll f it = [] := by
  cases f <;> simp [RowsIterator.takeAll, h]

/-- One step of `takeAll`. -/
theorem takeAll_succ (f : Nat) (it it' : RowsIterator) (rd : RowData)
    (h : it.next = some (rd, it')) :
    RowsIterator.takeAll (f + 1) it = rd :: RowsIterator.takeAll f it' := by
  simp [RowsIterator.takeAll, h]

/-- One step of the full trace. -/
theorem toList_of_next_some (it it' : RowsIterator) (rd : RowData)
    (h : it.next = some (rd, it')) : it.toList = rd :: it'.toList := by
  obtain ⟨hle, hrd, hit⟩ := next_eq_some_elim it it' rd h
  unfold RowsIterator.toList
  have h1 : it.last_row + 1 - it.current_row =
      (it'.last_row + 1 - it'.current_row) + 1 := by
    subst hit
    simp only []
    omega
  rw [h1, takeAll_succ _ _ _ _ h]

/-- Any fuel at least `last_row + 1 - current_row` yields the full trace. -/
theorem takeAll_eq_toList (f : Nat) (it : RowsIterator)
    (h : it.last_row + 1 - it.current_row ≤ f) :
    RowsIterator.takeAll f it = it.toList := by
  induction f generalizing it with
  | zero =>
    have h0 : it.last_row + 1 - it.current_row = 0 := by omega
    unfold RowsIterator.toList
    rw [h0]
  | succ f ih =>
    cases hn : it.next with
    | none =>
      unfold RowsIterator.toList
      rw [takeAll_next_none _ _ hn, takeAll_next_none _ _ hn]
    | some p =>
      obtain ⟨rd, it'⟩ := p
      rw [takeAll_succ _ _ _ _ hn, toList_of_next_some _ _ _ hn]
      obtain ⟨hle, hrd, hit⟩ := next_eq_some_elim it it' rd hn
      have hfuel : it'.last_row + 1 - it'.current_row ≤ f := by
        subst hit
        simp only []
        omega
      rw [ih it' hfuel]

/-- On a non-empty grid, `locate` reduces to the scanning loop with the
threshold `min_cols` and the grid's bounds. -/
theorem locate_of_nonempty (r : Range) (hne : r.cells.isEmpty = false) :
    locate r = match findHeader r.min_cols r.srow r.cells with
      | some (fr, row) =>
        some { header := buildHeader row, range := r, first_row := fr,
               last_row := r.srow + r.cells.length - 1,
               first_col := r.scol, last_col := r.scol + r.width - 1 }
      | none => none := by
  cases hf : findHeader r.min_cols r.srow r.cells with
  | none =>
    unfold Range.min_cols at hf
    simp [locate, Range.start, Range.rangeEnd, hne, hf]
  | some p =>
    obtain ⟨fr, row⟩ := p
    unfold Range.min_cols at hf
    simp [locate, Range.start, Range.rangeEnd, hne, hf]

/-- Claim C1: iterating rows is claimed to yield one handle per row
number from `first_row` through `last_row` with matching `number()`.
The code increments the cursor before constructing the handle, so on the
fixture view (data rows 2..4) iteration yields handle numbers `[3, 4, 5]`
instead of `[2, 3, 4]`: the first data row is never yielded and the last
handle points past `last_row`, where the view's own `get` bounds check
always fails.  This theorem evaluates the code at that failing input. -/
theorem iter_rows_off_by_one :
    locate exG = some exView ∧
    exView.iter_rows.toList.map RowData.number = [3, 4, 5] ∧
    exView.iter_rows.toList.map RowData.number ≠ [2, 3, 4] ∧
    exView.get 2 "H1" = some "a" ∧
    exView.get 5 "H1" = none := by
  refine ⟨by decide, by decide, by decide, by decide, by decide⟩

/-- Claim C2: `get` returns `none` whenever the row number is below
`first_row`, above `last_row`, or the column header is not a key of the
column map; and when the row is within bounds, the header is mapped to
offset `col`, and the grid has a cell at the absolute coordinate
`(row, col)`, `get` returns exactly that cell's string form.  Nothing in
the statement restricts `first_col`, so it covers grids whose bounding
box does not start at column 0. -/
theorem get_spec (d : WorkbookData) (row : Nat) (k : String) :
    ((row < d.first_row ∨ d.last_row < row ∨ k ∉ d.header.map Prod.fst) →
      d.get row k = none) ∧
    (∀ col s, d.first_row ≤ row → row ≤ d.last_row →
      headerGet d.header k = some col → d.range.get_value row col = some s →
      d.get row k = some s) := by
  constructor
  · intro h
    unfold WorkbookData.get
    rcases h with h | h | h
    · rw [if_pos (Or.inl h)]
    · rw [if_pos (Or.inr h)]
    · by_cases hb : row < d.first_row ∨ d.last_row < row
      · rw [if_pos hb]
      · rw [if_neg hb, headerGet_eq_none_of_not_mem _ _ h]
  · intro col s h1 h2 h3 h4
    unfold WorkbookData.get
    rw [if_neg (by omega), h3]
    exact h4

/-- Witness for C2 on the fixture with `first_col = 1`: row 1 is within
bounds, `"B"` is mapped to offset 1, and the grid's cell at absolute
coordinate `(1, 1)` is `"x"`, so `get` returns `"x"`. -/
theorem get_spec_witness :
    locate exG2 = some exView2 ∧ exView2.get 1 "B" = some "x" :=
  ⟨by decide, (get_spec exView2 1 "B").2 1 "x" (by decide) (by decide)
    (by decide) (by decide)⟩

/-- Claim C3 counterexample: a workbook whose only sheet fails to decode.
`from_path` returns the `Empty` ("no data") error for the file, not the
wrapped decoder error the claim requires: the per-sheet decoder error was
silently skipped. -/
theorem from_path_swallows_sheet_decoder_error :
    WorkbookData.from_path (.ok wbErr) "book.xlsx" =
      .error (.Empty "book.xlsx") ∧
    WorkbookData.from_path (.ok wbErr) "book.xlsx" ≠
      .error (.CalamineError ⟨"boom"⟩) := by
  refine ⟨by decide, by decide⟩

/-- Claim C3 as amended: `from_path_with_sheet_name` propagates a decoder
error on the named sheet (wrapped as `CalamineError`), and both entry
points propagate an error from opening the workbook; but inside
`from_path`'s sheet loop a decoder error on a sheet causes that sheet to
be skipped (the loop continues as if the sheet were not there), so when
no sheet succeeds `from_path` reports `Empty` rather than the decoder
error. -/
theorem decoder_error_propagation (e : CalamineError) (wb : Sheets)
    (filename sheet_name s : String) (names : List String)
    (hw : wb.worksheet_range sheet_name = some (.error e))
    (hs : wb.worksheet_range s = some (.error e)) :
    WorkbookData.from_path_with_sheet_name (.ok wb) filename sheet_name =
      .error (.CalamineError e) ∧
    WorkbookData.from_path (.error e) filename = .error (.CalamineError e) ∧
    WorkbookData.from_path_with_sheet_name (.error e) filename sheet_name =
      .error (.CalamineError e) ∧
    fromPathGo wb filename (s :: names) = fromPathGo wb filename names := by
  refine ⟨?_, rfl, rfl, ?_⟩
  · simp only [WorkbookData.from_path_with_sheet_name,
      WorkbookData.from_workbook_sheet_name, hw]
  · conv_lhs => rw [fromPathGo]
    simp only [WorkbookData.from_workbook_sheet_name, hs]

/-- Witness for C3's amended statement on the fixture workbook. -/
theorem decoder_error_propagation_witness :
    WorkbookData.from_path_with_sheet_name (.ok wbErr) "book.xlsx" "Sheet1" =
      .error (.CalamineError ⟨"boom"⟩) ∧
    WorkbookData.from_path (.error ⟨"boom"⟩) "book.xlsx" =
      .error (.CalamineError ⟨"boom"⟩) ∧
    WorkbookData.from_path_with_sheet_name (.error ⟨"boom"⟩) "book.xlsx" "Sheet1" =
      .error (.CalamineError ⟨"boom"⟩) ∧
    fromPathGo wbErr "book.xlsx" ["Sheet1"] = fromPathGo wbErr "book.xlsx" [] :=
  decoder_error_propagation ⟨"boom"⟩ wbErr "book.xlsx" "Sheet1" "Sheet1" []
    (by decide) (by decide)

/-- Claim C4: on a non-empty grid the locator scans from the grid's first
bounding-box row and accepts the first row whose non-empty-cell count
reaches `min_cols = last_col0 - first_col0 + 1`: when the `pre` leading
rows all fall below the threshold and `hdrRow` reaches it, exactly those
leading rows are skipped, the returned `first_row` is the header row's
absolute number (`srow + pre.length`) plus one, `last_row` is the grid's
last bounding-box row, and the column bounds are the grid's. -/
theorem header_locator_spec (r : Range) (pre : List (List String))
    (hdrRow : List String) (rest : List (List String))
    (hcells : r.cells = pre ++ hdrRow :: rest)
    (hpre : ∀ p ∈ pre, countNonEmpty p < r.min_cols)
    (hhdr : r.min_cols ≤ countNonEmpty hdrRow) :
    locate r =
      some { header := buildHeader hdrRow, range := r,
             first_row := r.srow + pre.length + 1,
             last_row := r.srow + r.cells.length - 1,
             first_col := r.scol, last_col := r.scol + r.width - 1 } := by
  have hne : r.cells.isEmpty = false := by
    rw [hcells]
    simp
  rw [locate_of_nonempty r hne, hcells,
    findHeader_append r.min_cols r.srow pre hdrRow rest hpre hhdr]

/-- Witness for C4 on the fixture grid: one leading title row is skipped
and the fully populated row `["H1", "H2"]` becomes the header. -/
theorem header_locator_spec_witness :
    locate exG =
      some { header := buildHeader ["H1", "H2"], range := exG,
             first_row := exG.srow + [["Title", ""]].length + 1,
             last_row := exG.srow + exG.cells.length - 1,
             first_col := exG.scol, last_col := exG.scol + exG.width - 1 } :=
  header_locator_spec exG [["Title", ""]] ["H1", "H2"]
    [["a", "b"], ["c", "d"], ["e", "f"]] (by decide) (by decide) (by decide)

/-- Claim C5: the column map built from a header row sends each name to
the offset of its last (rightmost) occurrence: when the row decomposes as
`pre ++ k :: suf` with `k` not occurring in `suf`, the map sends `k` to
`pre.length`. -/
theorem header_duplicate_last_wins (row pre suf : List String) (k : String)
    (hrow : row = pre ++ k :: suf) (hk : k ∉ suf) :
    headerGet (buildHeader row) k = some pre.length := by
  subst hrow
  simpa using headerGet_buildHeaderAux_last 0 pre suf k hk

/-- Witness for C5: the header row `["A", "B", "A"]` maps `"A"` to the
index of its second occurrence. -/
theorem header_duplicate_last_wins_witness :
    headerGet (buildHeader ["A", "B", "A"]) "A" = some 2 :=
  header_duplicate_last_wins ["A", "B", "A"] ["A", "B"] [] "A" rfl (by decide)

/-- Claim C6: on a grid with no rows, or one in which no row reaches the
non-empty-cell threshold, the locator returns a plain `none` (it is a
total function, so no panic is reachable), and the entry points convert
that into the no-data errors: `EmptySheet` naming file and sheet for
`from_path_with_sheet_name`, and `Empty` naming the file for `from_path`
when no sheet of the workbook yields a view. -/
theorem no_header_no_data (r : Range) (wb : Sheets) (filename sheet_name : String)
    (hr : r.cells = [] ∨ ∀ row ∈ r.cells, countNonEmpty row < r.min_cols) :
    locate r = none ∧
    (wb.worksheet_range sheet_name = some (.ok r) →
      WorkbookData.from_path_with_sheet_name (.ok wb) filename sheet_name =
        .error (.EmptySheet filename sheet_name)) ∧
    (wb.sheets = [(sheet_name, .ok r)] →
      WorkbookData.from_path (.ok wb) filename = .error (.Empty filename)) := by
  have hloc : locate r = none := by
    by_cases hc : r.cells.isEmpty
    · unfold locate Range.start Range.rangeEnd
      simp [hc]
    · rw [Bool.not_eq_true] at hc
      have hall : ∀ row ∈ r.cells, countNonEmpty row < r.min_cols := by
        rcases hr with h | h
        · rw [h] at hc
          simp at hc
        · exact h
      rw [locate_of_nonempty r hc, findHeader_none _ _ _ hall]
  refine ⟨hloc, ?_, ?_⟩
  · intro hw
    simp only [WorkbookData.from_path_with_sheet_name,
      WorkbookData.from_workbook_sheet_name, hw, hloc]
  · intro hs
    have hfind : List.find? (fun p => p.1 == sheet_name)
        ([(sheet_name, Except.ok r)] : List (String × Except CalamineError Range)) =
        some (sheet_name, Except.ok r) := by
      simp
    simp [WorkbookData.from_path, Sheets.sheet_names, hs, fromPathGo,
      WorkbookData.from_workbook_sheet_name, Sheets.worksheet_range, hfind, hloc]

/-- Witness for C6 on a workbook whose single sheet decodes to the empty
grid. -/
theorem no_header_no_data_witness :
    locate emptyG = none ∧
    (wbEmpty.worksheet_range "S" = some (.ok emptyG) →
      WorkbookData.from_path_with_sheet_name (.ok wbEmpty) "f.xlsx" "S" =
        .error (.EmptySheet "f.xlsx" "S")) ∧
    (wbEmpty.sheets = [("S", .ok emptyG)] →
      WorkbookData.from_path (.ok wbEmpty) "f.xlsx" = .error (.Empty "f.xlsx")) :=
  no_header_no_data emptyG wbEmpty "f.xlsx" "S" (Or.inl rfl)

/-- Claim C7: `parse` first fetches the cell's string via `get` and then
applies the target type's standard textual parsing (here integer parsing,
modelled by `parseNat`): `"42"` parses to `Ok 42`; a present but
unconvertible string yields a `ParseError` carrying both the column name
and the raw string; and in general `parse` succeeds exactly when `get`
returns a string the parser accepts — no further coercion. -/
theorem parse_spec {T : Type} (p : String → Option T) (rd : RowData) (k : String) :
    (rd.get k = .ok "42" → rd.parse parseNat k = .ok 42) ∧
    (rd.get k = .ok "abc" →
      rd.parse parseNat k = .error (.ParseError k "abc")) ∧
    (∀ s, rd.get k = .ok s → p s = none →
      rd.parse p k = .error (.ParseError k s)) ∧
    (∀ v, rd.parse p k = .ok v ↔ ∃ s, rd.get k = .ok s ∧ p s = some v) := by
  refine ⟨?_, ?_, ?_, ?_⟩
  · intro h
    unfold RowData.parse
    rw [h]
    rfl
  · intro h
    unfold RowData.parse
    rw [h]
    rfl
  · intro s h hp
    unfold RowData.parse
    rw [h]
    simp [hp]
  · intro v
    unfold RowData.parse
    cases hg : rd.get k with
    | error e => simp
    | ok s =>
      cases hp : p s with
      | some w => simp [hp]
      | none => simp [hp]

/-- Witness for C7 on single-cell fixtures: `"42"` parses to `42` in the
`"Qty"` column, `"abc"` yields the parse failure naming `"Qty"` and
`"abc"`. -/
theorem parse_spec_witness :
    rdQty.parse parseNat "Qty" = .ok 42 ∧
    rdAbc.parse parseNat "Qty" = .error (.ParseError "Qty" "abc") :=
  ⟨(parse_spec parseNat rdQty "Qty").1 (by decide),
   (parse_spec parseNat rdAbc "Qty").2.1 (by decide)⟩

/-- Claim C8: `is_row_empty` is `true` exactly when every column name in
the header map yields, via `get`, either nothing or the empty string at
that row (equivalently: it is `false` exactly when some header-mapped
column has a non-empty value there). -/
theorem is_row_empty_iff (d : WorkbookData) (row : Nat) :
    d.is_row_empty row = true ↔
      ∀ k ∈ d.header.map Prod.fst, ∀ v, d.get row k = some v → v = "" := by
  unfold WorkbookData.is_row_empty WorkbookData.headerKeys
  rw [beq_iff_eq, List.length_eq_zero, List.filter_eq_nil_iff]
  constructor
  · intro h k hk v hv
    have := h v (List.mem_filterMap.mpr ⟨k, List.mem_dedup.mpr hk, hv⟩)
    simpa [String.isEmpty_iff] using this
  · intro h v hv
    obtain ⟨k, hk, hget⟩ := List.mem_filterMap.mp hv
    have := h k (List.mem_dedup.mp hk) v hget
    subst this
    decide

/-- Witness for C8: on the fixture view, row 5 is past `last_row`, every
`get` misses, and the row counts as empty. -/
theorem is_row_empty_iff_witness : exView.is_row_empty 5 = true :=
  (is_row_empty_iff exView 5).mpr (by
    intro k hk v hv
    have hkeys : exView.header.map Prod.fst = ["H1", "H2"] := by decide
    rw [hkeys] at hk
    have hnone : exView.get 5 k = none := by
      fin_cases hk <;> decide
    rw [hnone] at hv
    exact Option.noConfusion hv)

/-- Claim C9: `iter_rows` is restartable and side-effect-free: it is a
pure function of the view, its cursor starts at `first_row`, advancing an
iterator neither changes the view it references nor what a later
`iter_rows` call on that view produces, and the trace is finite — any
sufficient fuel yields the same full list. -/
theorem iter_rows_restartable (d : WorkbookData) (it it' : RowsIterator)
    (rd : RowData) (f : Nat) (hnext : it.next = some (rd, it'))
    (hf : it.last_row + 1 - it.current_row ≤ f) :
    d.iter_rows.current_row = d.first_row ∧
    d.iter_rows.source = d ∧
    it'.source = it.source ∧
    rd.source = it.source ∧
    it'.source.iter_rows = it.source.iter_rows ∧
    RowsIterator.takeAll f it = it.toList := by
  obtain ⟨hle, hrd, hit⟩ := next_eq_some_elim it it' rd hnext
  refine ⟨rfl, rfl, ?_, ?_, ?_, takeAll_eq_toList f it hf⟩
  · rw [hit]
  · rw [hrd]
  · rw [hit]

/-- Witness for C9 on the fixture view: one step from a fresh iterator. -/
theorem iter_rows_restartable_witness :
    exView.iter_rows.current_row = exView.first_row ∧
    exView.iter_rows.source = exView ∧
    (⟨exView, 3, 4, 0, 1⟩ : RowsIterator).source = exView.iter_rows.source ∧
    (⟨exView, 3⟩ : RowData).source = exView.iter_rows.source ∧
    (⟨exView, 3, 4, 0, 1⟩ : RowsIterator).source.iter_rows =
      exView.iter_rows.source.iter_rows ∧
    RowsIterator.takeAll 3 exView.iter_rows = exView.iter_rows.toList :=
  iter_rows_restartable exView exView.iter_rows ⟨exView, 3, 4, 0, 1⟩
    ⟨exView, 3⟩ 3 (by decide) (by decide)

/-- Claim C10: a view produced by the locator on a well-formed grid has a
non-empty column map whose keys are all non-empty strings and whose
mapped offsets are all strictly below the bounding-box width
`last_col - first_col + 1`: acceptance requires every cell of the header
row to be non-empty, and the map is built from exactly that row. -/
theorem located_header_invariant (r : Range) (d : WorkbookData) (hwf : r.WF)
    (h : locate r = some d) :
    (∃ k v, headerGet d.header k = some v) ∧
    (∀ k v, headerGet d.header k = some v →
      k ≠ "" ∧ v < d.last_col - d.first_col + 1) := by
  obtain ⟨hdrRow, hmem, hcnt, hheader, hrange, hfc, hlc, hlr, hne⟩ :=
    locate_some_elim r d h
  obtain ⟨hrect, hwpos⟩ := hwf
  have hlen : hdrRow.length = r.width := hrect hdrRow hmem
  have hw1 : 0 < r.width := hwpos hne
  have hmc : r.min_cols = r.width := by
    unfold Range.min_cols
    omega
  have hcle : countNonEmpty hdrRow ≤ hdrRow.length :=
    List.length_filter_le _ _
  have hceq : countNonEmpty hdrRow = hdrRow.length := by
    rw [hmc] at hcnt
    omega
  have hnonempty := all_ne_empty_of_countNonEmpty_eq hdrRow hceq
  have hwidth : d.last_col - d.first_col + 1 = r.width := by
    rw [hfc, hlc]
    omega
  constructor
  · cases hcase : hdrRow with
    | nil =>
      rw [hcase] at hlen
      simp at hlen
      omega
    | cons s rest =>
      have hmem0 : (s, 0) ∈ d.header := by
        rw [hheader, hcase]
        unfold buildHeader buildHeaderAux
        exact List.mem_cons_self _ _
      obtain ⟨w, hw⟩ := headerGet_isSome_of_mem d.header s 0 hmem0
      exact ⟨s, w, hw⟩
  · intro k v hkv
    have hmem2 : (k, v) ∈ buildHeader hdrRow := by
      rw [← hheader]
      exact headerGet_mem _ _ _ hkv
    obtain ⟨hk1, hk2, hk3⟩ := buildHeaderAux_mem 0 hdrRow (k, v) hmem2
    refine ⟨hnonempty k hk1, ?_⟩
    rw [hwidth]
    simp only [Nat.zero_add] at hk3
    omega

/-- Witness for C10 on the fixture grid and its located view. -/
theorem located_header_invariant_witness :
    (∃ k v, headerGet exView.header k = some v) ∧
    (∀ k v, headerGet exView.header k = some v →
      k ≠ "" ∧ v < exView.last_col - exView.first_col + 1) :=
  located_header_invariant exG exView (by decide) (by decide)

end Excelerator
